import Mathlib

/-!
Shallow embedding of the minhttp HTTP/1.1 message engine
(src/http/message.rs, request.rs, response.rs, reader.rs, writer.rs,
src/main.rs).  Byte streams are modelled as `List Char` (all wire
delimiters are ASCII, and the decoder's line splitting on `'\n'` agrees
with the byte-level behaviour for the contents the claims concern);
an async reader positioned in a stream is the remaining list, so the
Rust functions that consume from a mutable reader become functions
returning the value together with the remaining input.  `anyhow::Result`
with the various error types erased into it becomes `Except DecodeError`
with one constructor per concrete error that can be produced.
-/

namespace Minhttp

/-- The error kinds a decode can surface.  `connectionClosed`,
`requestLineParse` and `header` are the three `MessageParseError`
variants of message.rs; `invalidVersion` is `VersionParseError`,
`invalidCode` the `u32` parse error of the status code,
`invalidContentLength` the `usize` parse error of the Content-Length
value, and `bodyReadFailure` the `read_exact` UnexpectedEof I/O error. -/
inductive DecodeError where
  | connectionClosed
  | requestLineParse
  | header
  | invalidVersion
  | invalidCode
  | invalidContentLength
  | bodyReadFailure
deriving DecidableEq, Repr

/-- `Method` from message.rs. -/
inductive Method where
  | get | head | post | put | delete | connect | options | trace | patch
deriving DecidableEq, Repr

/-- `impl FromStr for Method` in message.rs: exact case-sensitive match. -/
def Method.fromStr (s : List Char) : Option Method :=
  if s = "GET".toList then some .get
  else if s = "HEAD".toList then some .head
  else if s = "POST".toList then some .post
  else if s = "PUT".toList then some .put
  else if s = "DELETE".toList then some .delete
  else if s = "CONNECT".toList then some .connect
  else if s = "OPTIONS".toList then some .options
  else if s = "TRACE".toList then some .trace
  else if s = "PATCH".toList then some .patch
  else none

/-- `impl Display for Method` in message.rs. -/
def Method.toToken : Method → List Char
  | .get => "GET".toList
  | .head => "HEAD".toList
  | .post => "POST".toList
  | .put => "PUT".toList
  | .delete => "DELETE".toList
  | .connect => "CONNECT".toList
  | .options => "OPTIONS".toList
  | .trace => "TRACE".toList
  | .patch => "PATCH".toList

/-- `Version` from message.rs. -/
inductive Version where
  | http11 | http2 | http3
deriving DecidableEq, Repr

/-- `impl FromStr for Version` in message.rs: exact case-sensitive match. -/
def Version.fromStr (s : List Char) : Option Version :=
  if s = "HTTP/1.1".toList then some .http11
  else if s = "HTTP/2".toList then some .http2
  else if s = "HTTP/3".toList then some .http3
  else none

/-- `impl Display for Version` (also `to_str` as used by
response.rs serialization) in message.rs. -/
def Version.toToken : Version → List Char
  | .http11 => "HTTP/1.1".toList
  | .http2 => "HTTP/2".toList
  | .http3 => "HTTP/3".toList

/-! ### Decimal integers

Rust's `str::parse` for unsigned integers accepts an optional leading
`+`, then one or more ASCII digits, and fails on overflow.  `to_string`
prints plain decimal. -/

/-- Value of an ASCII digit character, if it is one. -/
def digitVal (c : Char) : Option Nat :=
  if '0' ≤ c ∧ c ≤ '9' then some (c.toNat - 48) else none

/-- Accumulate decimal digits left to right; `none` if the list is empty
or contains a non-digit. -/
def parseDigits : List Char → Option Nat
  | [] => none
  | [c] => digitVal c
  | c :: rest =>
    match digitVal c, parseDigits rest with
    | some d, some n => some (d * 10 ^ rest.length + n)
    | _, _ => none

/-- Rust `str::parse::<uN>`: optional `+` sign, digits, overflow check
against the type's maximum. -/
def stripSign : List Char → List Char
  | '+' :: rest => rest
  | s => s

def parseUnsigned (maxExp : Nat) (s : List Char) : Option Nat :=
  match parseDigits (stripSign s) with
  | some n => if n < 2 ^ maxExp then some n else none
  | none => none

/-- `str::parse::<usize>` (64-bit). -/
def parseUsize : List Char → Option Nat := parseUnsigned 64

/-- `str::parse::<u32>`. -/
def parseU32 : List Char → Option Nat := parseUnsigned 32

/-- Rust `to_string` on an unsigned integer: plain decimal digits. -/
def natToText (n : Nat) : List Char :=
  if n = 0 then ['0'] else ((Nat.digits 10 n).reverse.map Nat.digitChar)

/-! ### Line reading

`tokio::io::Lines::next_line` reads up to and including the next `'\n'`
(or to end of stream), returns `None` when no bytes remain, and strips
the trailing `'\n'` and then one trailing `'\r'` from the returned line. -/

/-- Remove one trailing carriage return, as `next_line` does. -/
def stripCR (l : List Char) : List Char :=
  if l.getLast? = some '\r' then l.dropLast else l

/-- `Lines::next_line` on a stream: the line (without its terminator)
and the remaining stream, or `none` at end of stream. -/
def nextLine (s : List Char) : Option (List Char) × List Char :=
  if s.isEmpty then (none, [])
  else (some (stripCR (s.takeWhile (fun c => c ≠ '\n'))),
        (s.dropWhile (fun c => c ≠ '\n')).drop 1)

/-! ### Header maps

`HashMap<String, String>`, modelled as an association list; `insert`
overwrites the value of an existing key and otherwise appends, and
serialization iterates the entries in list order (the Rust `HashMap`
iterates in some unspecified order; the association list fixes one). -/

abbrev Headers := List (List Char × List Char)

/-- `HashMap::get`. -/
def lookupH : Headers → List Char → Option (List Char)
  | [], _ => none
  | (k, v) :: rest, key => if k = key then some v else lookupH rest key

/-- `HashMap::insert`: last write wins. -/
def insertH : Headers → List Char → List Char → Headers
  | [], k, v => [(k, v)]
  | (k0, v0) :: rest, k, v =>
    if k0 = k then (k0, v) :: rest else (k0, v0) :: insertH rest k v

/-- `str::split_once(": ")`: split at the first occurrence of
colon-space, `none` if there is none. -/
def splitOnceCS : List Char → Option (List Char × List Char)
  | [] => none
  | c :: rest =>
    if c = ':' ∧ rest.head? = some ' ' then some ([], rest.tail)
    else (splitOnceCS rest).map (fun p => (c :: p.1, p.2))

/-- Whether colon-space occurs somewhere in the list. -/
def hasCS : List Char → Bool
  | [] => false
  | c :: rest => (decide (c = ':') && decide (rest.head? = some ' ')) || hasCS rest

/-- Split at the first occurrence of a character, `none` if absent. -/
def splitOnceChar (c : Char) : List Char → Option (List Char × List Char)
  | [] => none
  | x :: rest =>
    if x = c then some ([], rest)
    else (splitOnceChar c rest).map (fun p => (x :: p.1, p.2))

/-- `str::splitn(3, ' ')`: at most three parts, the third keeps any
further spaces. -/
def splitn3 (s : List Char) : List (List Char) :=
  match splitOnceChar ' ' s with
  | none => [s]
  | some (a, rest) =>
    match splitOnceChar ' ' rest with
    | none => [a, rest]
    | some (b, rest2) => [a, b, rest2]

/-! ### Requests and responses -/

/-- `Request` from request.rs. -/
structure Request where
  method : Method
  resource : List Char
  version : Version
  headers : Headers
  body : List Char
deriving DecidableEq, Repr

/-- `Response` from response.rs.  `code` is a `u32` in the source; its
range invariant is carried as a hypothesis where it matters. -/
structure Response where
  version : Version
  code : Nat
  message : List Char
  headers : Headers
  body : List Char
deriving DecidableEq, Repr

/-- `Message` from message.rs. -/
inductive Message where
  | request : Request → Message
  | response : Response → Message
deriving DecidableEq, Repr

/-- `Request::new` (request.rs): read `Content-Length` bytes of body
from the stream (a failing parse of the header value is an error, a
stream shorter than the announced length makes `read_exact` fail with
UnexpectedEof), no header means an empty body and nothing consumed.
Returns the request and the remaining stream. -/
def Request.new (m : Method) (resource : List Char) (v : Version)
    (hs : Headers) (stream : List Char) :
    Except DecodeError (Request × List Char) :=
  match lookupH hs "Content-Length".toList with
  | none =>
      .ok ({ method := m, resource := resource, version := v,
             headers := hs, body := [] }, stream)
  | some val =>
      match parseUsize val with
      | none => .error .invalidContentLength
      | some n =>
          if n ≤ stream.length then
            .ok ({ method := m, resource := resource, version := v,
                   headers := hs, body := stream.take n }, stream.drop n)
          else .error .bodyReadFailure

/-- `Response::new` (response.rs): same body-reading discipline as
`Request::new`. -/
def Response.new (v : Version) (errno : Nat) (errstr : List Char)
    (hs : Headers) (stream : List Char) :
    Except DecodeError (Response × List Char) :=
  match lookupH hs "Content-Length".toList with
  | none =>
      .ok ({ version := v, code := errno, message := errstr,
             headers := hs, body := [] }, stream)
  | some val =>
      match parseUsize val with
      | none => .error .invalidContentLength
      | some n =>
          if n ≤ stream.length then
            .ok ({ version := v, code := errno, message := errstr,
                   headers := hs, body := stream.take n }, stream.drop n)
          else .error .bodyReadFailure

/-- `Message::parse` (message.rs): split the start line with
`splitn(3, ' ')`, demand exactly three parts, classify by the first
part (Method, else Version, else start-line failure), then build the
Request or Response, reading the body from the stream. -/
def Message.parse (line : List Char) (hs : Headers) (stream : List Char) :
    Except DecodeError (Message × List Char) :=
  match splitn3 line with
  | [a, b, c] =>
      match Method.fromStr a with
      | some m =>
          match Version.fromStr c with
          | some ver =>
              (Request.new m b ver hs stream).map
                (fun p => (Message.request p.1, p.2))
          | none => .error .invalidVersion
      | none =>
          match Version.fromStr a with
          | some ver =>
              match parseU32 b with
              | some code =>
                  (Response.new ver code c hs stream).map
                    (fun p => (Message.response p.1, p.2))
              | none => .error .invalidCode
          | none => .error .requestLineParse
  | _ => .error .requestLineParse

/-- One fuelled unrolling of the header-reading loop of
`Message::deserialize` (message.rs):
`while let Some(line) = lines.next_line().await?.filter(|l| !l.is_empty())`.
Both end of stream and an empty line end the loop; a non-empty line
must contain `": "` or the loop fails with the header error.  The loop
consumes at least one character per iteration, so fuel `s.length + 1`
makes the zero-fuel branch unreachable (`readHeaders_eq` below). -/
def readHeadersF : Nat → List Char → Headers →
    Except DecodeError (Headers × List Char)
  | 0, _, _ => .error .header
  | fuel + 1, s, hs =>
      match nextLine s with
      | (none, rest) => .ok (hs, rest)
      | (some line, rest) =>
          if line.isEmpty then .ok (hs, rest)
          else
            match splitOnceCS line with
            | none => .error .header
            | some (k, v) => readHeadersF fuel rest (insertH hs k v)

/-- The header-reading loop itself, with always-sufficient fuel. -/
def readHeaders (s : List Char) (hs : Headers) :
    Except DecodeError (Headers × List Char) :=
  readHeadersF (s.length + 1) s hs

/-- `Message::deserialize` (message.rs): read the start line (`none`
means the peer closed the connection), read the header block, then
hand the remaining stream to `Message::parse` for the body. -/
def Message.deserialize (s : List Char) :
    Except DecodeError (Message × List Char) :=
  match nextLine s with
  | (none, _) => .error .connectionClosed
  | (some line, rest) =>
      match readHeaders rest [] with
      | .error e => .error e
      | .ok (hs, rest2) => Message.parse line hs rest2

/-! ### Serialization -/

/-- The header block of `Serialize for Request`/`Response`: each entry
as `name: value` followed by CRLF, in iteration order. -/
def serializeHeaders : Headers → List Char
  | [] => []
  | (k, v) :: rest =>
      k ++ ':' :: ' ' :: v ++ '\r' :: '\n' :: serializeHeaders rest

/-- `impl Serialize for Request` (request.rs): start line, headers,
blank line, raw body. -/
def Request.serialize (r : Request) : List Char :=
  r.method.toToken ++ ' ' :: r.resource ++ ' ' :: r.version.toToken
    ++ '\r' :: '\n' :: serializeHeaders r.headers
    ++ '\r' :: '\n' :: r.body

/-- `impl Serialize for Response` (response.rs): status line, headers,
blank line, raw body. -/
def Response.serialize (r : Response) : List Char :=
  r.version.toToken ++ ' ' :: natToText r.code ++ ' ' :: r.message
    ++ '\r' :: '\n' :: serializeHeaders r.headers
    ++ '\r' :: '\n' :: r.body

/-- `impl Serialize for Message` (message.rs). -/
def Message.serialize : Message → List Char
  | .request r => r.serialize
  | .response r => r.serialize

/-! ### The file-serving convenience path (response.rs) -/

/-- `Response::message` (response.rs): the fixed status-code →
reason-phrase table.  Named `statusMessage` here because `message` is
the struct field. -/
def Response.statusMessage (code : Nat) : Option (List Char) :=
  if code = 100 then some "Continue".toList
  else if code = 101 then some "Switching Protocols".toList
  else if code = 102 then some "Processing".toList
  else if code = 103 then some "Early Hints".toList
  else if code = 200 then some "OK".toList
  else if code = 201 then some "Created".toList
  else if code = 202 then some "Accepted".toList
  else if code = 203 then some "Non-Authorative Information".toList
  else if code = 204 then some "No Content".toList
  else if code = 205 then some "Reset Content".toList
  else if code = 206 then some "Partial Content".toList
  else if code = 207 then some "Multi-Status".toList
  else if code = 208 then some "Already Reporting".toList
  else if code = 226 then some "IM Used".toList
  else if code = 300 then some "Multiple Choices".toList
  else if code = 301 then some "Moved Permanently".toList
  else if code = 302 then some "Found".toList
  else if code = 303 then some "See Other".toList
  else if code = 304 then some "Not Modified".toList
  else if code = 307 then some "Temporary Redirect".toList
  else if code = 308 then some "Permanent Redirect".toList
  else if code = 400 then some "Bad Request".toList
  else if code = 401 then some "Unauthorized".toList
  else if code = 403 then some "Forbidden".toList
  else if code = 404 then some "Not Found".toList
  else if code = 405 then some "Method Not Allowed".toList
  else if code = 406 then some "Not Acceptable".toList
  else if code = 407 then some "Proxy Authentication Required".toList
  else if code = 408 then some "Request Timeout".toList
  else if code = 409 then some "Conflict".toList
  else if code = 410 then some "Gone".toList
  else if code = 411 then some "Length Required".toList
  else if code = 412 then some "Precondition Failed".toList
  else if code = 413 then some "Payload Too Large".toList
  else if code = 414 then some "URI Too Long".toList
  else if code = 415 then some "Unsupported Media Type".toList
  else if code = 416 then some "Range Not Satisfyable".toList
  else if code = 417 then some "Expectation Failed".toList
  else if code = 418 then some "I'm a teapot".toList
  else if code = 421 then some "Misdirect Request".toList
  else if code = 422 then some "Unprocessable Content".toList
  else if code = 423 then some "Locked".toList
  else if code = 424 then some "Failed Dependency".toList
  else if code = 426 then some "Upgrade Required".toList
  else if code = 428 then some "Precondition Required".toList
  else if code = 429 then some "Too Many Requests".toList
  else if code = 431 then some "Request Header Fields Too Large".toList
  else if code = 451 then some "Unavailable for Legal Reasons".toList
  else if code = 500 then some "Internal Server Error".toList
  else if code = 501 then some "Not Implemented".toList
  else if code = 502 then some "Bad Gateway".toList
  else if code = 503 then some "Service Unavailable".toList
  else if code = 504 then some "Gateway Timeout".toList
  else if code = 505 then some "HTTP Version Not Supported".toList
  else if code = 506 then some "Variant Also Negotiates".toList
  else if code = 507 then some "Insufficient Storage".toList
  else if code = 508 then some "Loop Detected".toList
  else if code = 510 then some "Not Extended".toList
  else if code = 511 then some "Network Authentication Required".toList
  else none

/-- `Response::serve_file_with_code` (response.rs): the file is a byte
source whose `metadata().len()` equals its length; the headers are just
`Content-Length` set to that length, the reason phrase comes from the
status table (`"Unknown Code"` if absent), and `Response::new` then
reads the body back out of the file. -/
def Response.serveFileWithCode (v : Version) (code : Nat)
    (file : List Char) : Except DecodeError (Response × List Char) :=
  Response.new v code
    ((Response.statusMessage code).getD "Unknown Code".toList)
    [("Content-Length".toList, natToText file.length)] file

/-- `Response::serve_file` (response.rs). -/
def Response.serveFile (v : Version) (file : List Char) :
    Except DecodeError (Response × List Char) :=
  Response.serveFileWithCode v 200 file

/-! ### The writer adapter (writer.rs) -/

/-- A stream-level I/O error (opaque payload). -/
structure IoError where
  errno : Nat
deriving DecidableEq, Repr

/-- `HttpWriter::write_obj` (writer.rs): serialize, then perform exactly
one `write` call with the bytes and return `Ok(())` — the number of
bytes the stream accepted is never inspected.  The underlying stream is
modelled as a function from the offered bytes to the write outcome
(count accepted, or an I/O error); the second component of the result
is the list of write calls performed, each with its payload.
Serialization itself (formatting into a `String`) cannot fail. -/
def HttpWriter.writeObj (msg : Message)
    (stream : List Char → Except IoError Nat) :
    Except IoError Unit × List (List Char) :=
  match stream (Message.serialize msg) with
  | .error e => (.error e, [Message.serialize msg])
  | .ok _ => (.ok (), [Message.serialize msg])

/-! ### The connection loop (main.rs, `handle_connection`) -/

/-- One fuelled unrolling of `handle_connection` (main.rs): decode one
message; on `ConnectionClosed` return `Ok(())` (graceful, `true`), on
any other decode error return the error (`false`); otherwise reply —
through the response policy for a request, with the fixed bad-request
reply for an inbound response — and loop.  The response policy
(`create_response`) and the bad-request reply (`error(400, ..)`) are
the external collaborators of the spec, passed as parameters; replies
are recorded in the order they are written (each one is written with
`write_obj` before the next decode).  A successful decode consumes at
least one character, so fuel `s.length + 1` suffices
(`handleConnection_eq` below). -/
def handleConnectionF (policy : Request → Response) (badReply : Response) :
    Nat → List Char → List Response × Bool
  | 0, _ => ([], false)
  | fuel + 1, s =>
      match Message.deserialize s with
      | .error .connectionClosed => ([], true)
      | .error _ => ([], false)
      | .ok (msg, rest) =>
          let reply :=
            match msg with
            | .request req => policy req
            | .response _ => badReply
          let next := handleConnectionF policy badReply fuel rest
          (reply :: next.1, next.2)

/-- `handle_connection` (main.rs) with always-sufficient fuel: the
replies written, in order, and whether the loop ended gracefully
(`Ok(())`, i.e. the decoder reported the peer closing) or with an
error surfaced to the caller. -/
def handleConnection (policy : Request → Response) (badReply : Response)
    (s : List Char) : List Response × Bool :=
  handleConnectionF policy badReply (s.length + 1) s


/-! ### Wellformedness for the round trip

The encoder writes any value verbatim; the decoder only recovers those
whose fields cannot collide with the wire delimiters.  These predicates
collect exactly the conditions the round-trip theorems need. -/

/-- Body length agrees with the `Content-Length` header the way the
decoder will reproduce it: the announced length parses to the body's
length, and an absent header means an empty body. -/
def bodyLenMatches (hs : Headers) (body : List Char) : Bool :=
  match lookupH hs "Content-Length".toList with
  | none => body.isEmpty
  | some v => parseUsize v == some body.length

/-- One header entry survives the wire: no newline in name or value and
no colon-space inside the name (the decoder splits at the first one). -/
abbrev WfHeader (p : List Char × List Char) : Prop :=
  '\n' ∉ p.1 ∧ hasCS p.1 = false ∧ '\n' ∉ p.2

/-- A header map survives the wire: distinct keys (it models a
`HashMap`) and every entry wellformed. -/
abbrev WfHeaders (hs : Headers) : Prop :=
  (hs.map Prod.fst).Nodup ∧ ∀ p ∈ hs, WfHeader p

/-- A request the decoder can reproduce: no space or newline in the
resource (the start line is split on spaces), wellformed headers, and a
body consistent with `Content-Length`. -/
abbrev Request.Wf (r : Request) : Prop :=
  ' ' ∉ r.resource ∧ '\n' ∉ r.resource ∧ WfHeaders r.headers ∧
  bodyLenMatches r.headers r.body = true

/-- A response the decoder can reproduce: the status code in `u32`
range, no newline in the reason phrase (spaces are fine, the reason is
the third `splitn` field), wellformed headers, and a body consistent
with `Content-Length`. -/
abbrev Response.Wf (r : Response) : Prop :=
  r.code < 2 ^ 32 ∧ '\n' ∉ r.message ∧ WfHeaders r.headers ∧
  bodyLenMatches r.headers r.body = true

/-! ## Support lemmas -/

theorem length_dropWhile_le (p : Char → Bool) (s : List Char) :
    (s.dropWhile p).length ≤ s.length := by
  induction s with
  | nil => simp
  | cons c t ih =>
      by_cases hc : p c
      · simp only [List.dropWhile_cons, hc, if_true]
        exact Nat.le_trans ih (Nat.le_succ _)
      · simp [List.dropWhile_cons, hc]

theorem nextLine_rest_length {s : List Char} (h : s ≠ []) :
    (nextLine s).2.length < s.length := by
  unfold nextLine
  have hne : s.isEmpty = false := by simp [List.isEmpty_iff, h]
  rw [hne]
  simp only [Bool.false_eq_true, if_false]
  rcases hd : s.dropWhile (fun c => c ≠ '\n') with _ | ⟨c, t⟩
  · simpa using List.length_pos.mpr h
  · have hle := length_dropWhile_le (fun c => decide (c ≠ '\n')) s
    rw [hd] at hle
    simp only [List.drop_one, List.tail_cons]
    simp only [List.length_cons] at hle
    omega

theorem nextLine_none {s : List Char} {rest : List Char}
    (h : nextLine s = (none, rest)) : s = [] ∧ rest = [] := by
  by_cases hs : s = []
  · subst hs
    simp [nextLine] at h
    simp [h]
  · simp [nextLine, List.isEmpty_iff, hs] at h

theorem readHeadersF_fuel :
    ∀ (f1 f2 : Nat) (s : List Char) (hs : Headers),
      s.length < f1 → s.length < f2 →
      readHeadersF f1 s hs = readHeadersF f2 s hs := by
  intro f1
  induction f1 with
  | zero => intro f2 s hs h1; omega
  | succ f ih =>
      intro f2 s hs h1 h2
      match f2, h2 with
      | g + 1, h2 =>
        show readHeadersF (f + 1) s hs = readHeadersF (g + 1) s hs
        unfold readHeadersF
        rcases hnl : nextLine s with ⟨line?, rest⟩
        rcases line? with _ | ⟨line⟩
        · rfl
        · simp only []
          by_cases hemp : line.isEmpty
          · simp [hemp]
          · simp only [hemp, Bool.false_eq_true, if_false]
            rcases hsp : splitOnceCS line with _ | ⟨k, v⟩
            · rfl
            · have hne : s ≠ [] := by
                intro hnil
                rw [hnil] at hnl
                simp [nextLine] at hnl
              have hlt := nextLine_rest_length hne
              rw [hnl] at hlt
              simp only [] at hlt
              exact ih g rest _ (by omega) (by omega)

/-- The defining equation of the header loop, fuel eliminated. -/
theorem readHeaders_eq (s : List Char) (hs : Headers) :
    readHeaders s hs =
      match nextLine s with
      | (none, rest) => .ok (hs, rest)
      | (some line, rest) =>
          if line.isEmpty then .ok (hs, rest)
          else
            match splitOnceCS line with
            | none => .error .header
            | some (k, v) => readHeaders rest (insertH hs k v) := by
  show readHeadersF (s.length + 1) s hs = _
  unfold readHeadersF
  rcases hnl : nextLine s with ⟨line?, rest⟩
  rcases line? with _ | ⟨line⟩
  · rfl
  · simp only []
    by_cases hemp : line.isEmpty
    · simp [hemp]
    · simp only [hemp, Bool.false_eq_true, if_false]
      rcases hsp : splitOnceCS line with _ | ⟨k, v⟩
      · rfl
      · have hne : s ≠ [] := by
          intro hnil
          rw [hnil] at hnl
          simp [nextLine] at hnl
        have hlt := nextLine_rest_length hne
        rw [hnl] at hlt
        simp only [] at hlt
        exact readHeadersF_fuel _ _ rest _ (by omega) (by omega)

/-- A successful `next_line` strictly consumes input. -/
theorem nextLine_some_rest_lt {s line rest : List Char}
    (h : nextLine s = (some line, rest)) : rest.length < s.length := by
  have hne : s ≠ [] := by
    intro hnil
    rw [hnil] at h
    simp [nextLine] at h
  have hlt := nextLine_rest_length hne
  rw [h] at hlt
  simpa using hlt

/-- Consumption bound for the header loop: it never grows the stream. -/
theorem readHeadersF_rest_le :
    ∀ (fuel : Nat) (s : List Char) (acc hs : Headers) (rest : List Char),
      readHeadersF fuel s acc = .ok (hs, rest) → rest.length ≤ s.length := by
  intro fuel
  induction fuel with
  | zero => intro s acc hs rest h; simp [readHeadersF] at h
  | succ f ih =>
      intro s acc hs rest h
      unfold readHeadersF at h
      split at h
      · rename_i heq
        obtain ⟨hs1, hr1⟩ := nextLine_none heq
        simp only [Except.ok.injEq, Prod.mk.injEq] at h
        obtain ⟨h1, h2⟩ := h
        subst h2
        rw [hr1]
        simp
      · rename_i line r1 heq
        split at h
        · simp only [Except.ok.injEq, Prod.mk.injEq] at h
          obtain ⟨h1, h2⟩ := h
          subst h2
          exact Nat.le_of_lt (nextLine_some_rest_lt heq)
        · split at h
          · simp at h
          · rename_i k v hsp
            have h1 := ih r1 _ hs rest h
            have h2 := nextLine_some_rest_lt heq
            omega

/-- Consumption bound for body reading in `Request::new`. -/
theorem request_new_rest_le {m : Method} {res : List Char} {v : Version}
    {hs : Headers} {stream : List Char} {r : Request} {rest : List Char}
    (h : Request.new m res v hs stream = .ok (r, rest)) :
    rest.length ≤ stream.length := by
  unfold Request.new at h
  split at h
  · simp only [Except.ok.injEq, Prod.mk.injEq] at h
    obtain ⟨h1, h2⟩ := h
    subst h2
    exact Nat.le_refl _
  · split at h
    · simp at h
    · split at h
      · simp only [Except.ok.injEq, Prod.mk.injEq] at h
        obtain ⟨h1, h2⟩ := h
        subst h2
        simp
      · simp at h

/-- Consumption bound for body reading in `Response::new`. -/
theorem response_new_rest_le {v : Version} {code : Nat} {msg : List Char}
    {hs : Headers} {stream : List Char} {r : Response} {rest : List Char}
    (h : Response.new v code msg hs stream = .ok (r, rest)) :
    rest.length ≤ stream.length := by
  unfold Response.new at h
  split at h
  · simp only [Except.ok.injEq, Prod.mk.injEq] at h
    obtain ⟨h1, h2⟩ := h
    subst h2
    exact Nat.le_refl _
  · split at h
    · simp at h
    · split at h
      · simp only [Except.ok.injEq, Prod.mk.injEq] at h
        obtain ⟨h1, h2⟩ := h
        subst h2
        simp
      · simp at h

/-- Consumption bound for body reading inside `Message::parse`. -/
theorem parse_rest_le {line : List Char} {hs : Headers}
    {stream : List Char} {m : Message} {rest : List Char}
    (h : Message.parse line hs stream = .ok (m, rest)) :
    rest.length ≤ stream.length := by
  unfold Message.parse at h
  split at h
  · split at h
    · split at h
      · rw [Except.map.eq_def] at h
        split at h
        · simp at h
        · rename_i p hr
          obtain ⟨req2, rest2⟩ := p
          simp only [Except.ok.injEq, Prod.mk.injEq] at h
          obtain ⟨h1, h2⟩ := h
          subst h2
          exact request_new_rest_le hr
      · simp at h
    · split at h
      · split at h
        · rw [Except.map.eq_def] at h
          split at h
          · simp at h
          · rename_i p hr
            obtain ⟨resp2, rest2⟩ := p
            simp only [Except.ok.injEq, Prod.mk.injEq] at h
            obtain ⟨h1, h2⟩ := h
            subst h2
            exact response_new_rest_le hr
        · simp at h
      · simp at h
  · simp at h

/-- A successful decode consumes at least the start line. -/
theorem deserialize_rest_lt {s : List Char} {m : Message}
    {rest : List Char} (h : Message.deserialize s = .ok (m, rest)) :
    rest.length < s.length := by
  unfold Message.deserialize at h
  split at h
  · simp at h
  · rename_i line r1 heq
    split at h
    · simp at h
    · rename_i hs r2 hrh
      have h1 : r2.length ≤ r1.length := readHeadersF_rest_le _ _ _ _ _ hrh
      have h2 : rest.length ≤ r2.length := parse_rest_le h
      have h3 := nextLine_some_rest_lt heq
      omega

theorem handleConnectionF_fuel (policy : Request → Response)
    (badReply : Response) :
    ∀ (f1 f2 : Nat) (s : List Char), s.length < f1 → s.length < f2 →
      handleConnectionF policy badReply f1 s =
      handleConnectionF policy badReply f2 s := by
  intro f1
  induction f1 with
  | zero => intro f2 s h1; omega
  | succ f ih =>
      intro f2 s h1 h2
      match f2, h2 with
      | g + 1, h2 =>
        show handleConnectionF policy badReply (f + 1) s = _
        unfold handleConnectionF
        rcases hd : Message.deserialize s with e | ⟨msg, rest⟩
        · rcases e <;> rfl
        · simp only []
          have hlt := deserialize_rest_lt hd
          rw [ih g rest (by omega) (by omega)]

/-- The defining equation of the connection loop, fuel eliminated. -/
theorem handleConnection_eq (policy : Request → Response)
    (badReply : Response) (s : List Char) :
    handleConnection policy badReply s =
      match Message.deserialize s with
      | .error .connectionClosed => ([], true)
      | .error _ => ([], false)
      | .ok (msg, rest) =>
          let reply :=
            match msg with
            | .request req => policy req
            | .response _ => badReply
          let next := handleConnection policy badReply rest
          (reply :: next.1, next.2) := by
  show handleConnectionF policy badReply (s.length + 1) s = _
  unfold handleConnectionF
  rcases hd : Message.deserialize s with e | ⟨msg, rest⟩
  · rcases e <;> rfl
  · simp only []
    have hlt := deserialize_rest_lt hd
    rw [handleConnectionF_fuel policy badReply s.length (rest.length + 1)
      rest (by omega) (by omega)]
    rfl

/-! ### Token lemmas -/

theorem method_fromStr_toToken (m : Method) :
    Method.fromStr m.toToken = some m := by
  cases m <;> rfl

theorem version_fromStr_toToken (v : Version) :
    Version.fromStr v.toToken = some v := by
  cases v <;> rfl

theorem method_fromStr_version_token (v : Version) :
    Method.fromStr v.toToken = none := by
  cases v <;> rfl

theorem method_toToken_no_space (m : Method) : ' ' ∉ m.toToken := by
  cases m <;> decide

theorem method_toToken_no_lf (m : Method) : '\n' ∉ m.toToken := by
  cases m <;> decide

theorem version_toToken_no_space (v : Version) : ' ' ∉ v.toToken := by
  cases v <;> decide

theorem version_toToken_no_lf (v : Version) : '\n' ∉ v.toToken := by
  cases v <;> decide

/-! ### Decimal lemmas -/

theorem digitVal_digitChar {d : Nat} (h : d < 10) :
    digitVal (Nat.digitChar d) = some d := by
  interval_cases d <;> rfl

theorem digitChar_is_digit {d : Nat} (h : d < 10) :
    '0' ≤ Nat.digitChar d ∧ Nat.digitChar d ≤ '9' := by
  interval_cases d <;> exact ⟨by decide, by decide⟩

theorem parseDigits_map :
    ∀ (L : List Nat), L ≠ [] → (∀ d ∈ L, d < 10) →
      parseDigits (L.map Nat.digitChar) = some (Nat.ofDigits 10 L.reverse) := by
  intro L
  induction L with
  | nil => intro h; exact absurd rfl h
  | cons d L2 ih =>
      intro _ hd
      rcases hL2 : L2 with _ | ⟨d2, L3⟩
      · simp only [List.map_cons, List.map_nil]
        rw [show parseDigits [Nat.digitChar d] = digitVal (Nat.digitChar d)
              from rfl,
            digitVal_digitChar (hd d (by simp))]
        simp [Nat.ofDigits]
      · rw [← hL2]
        have hne2 : L2 ≠ [] := by rw [hL2]; simp
        have hstep : parseDigits (Nat.digitChar d :: L2.map Nat.digitChar) =
            match digitVal (Nat.digitChar d),
                  parseDigits (L2.map Nat.digitChar) with
            | some a, some n => some (a * 10 ^ (L2.map Nat.digitChar).length + n)
            | _, _ => none := by
          rw [hL2]
          rfl
        rw [List.map_cons, hstep, digitVal_digitChar (hd d (by simp)),
            ih hne2 (fun x hx => hd x (by simp [hx]))]
        simp only [List.reverse_cons, Nat.ofDigits_append, List.length_map,
          List.length_reverse, Nat.ofDigits_singleton]
        ring_nf

theorem natToText_ne_nil (n : Nat) : natToText n ≠ [] := by
  unfold natToText
  split
  · simp
  · rename_i h
    simp [Nat.digits_ne_nil_iff_ne_zero.mpr h]

theorem natToText_all_digits (n : Nat) :
    ∀ c ∈ natToText n, '0' ≤ c ∧ c ≤ '9' := by
  unfold natToText
  split
  · intro c hc
    simp only [List.mem_singleton] at hc
    subst hc
    exact ⟨by decide, by decide⟩
  · intro c hc
    simp only [List.mem_map, List.mem_reverse] at hc
    obtain ⟨d, hd, rfl⟩ := hc
    exact digitChar_is_digit (Nat.digits_lt_base (by norm_num) hd)

theorem natToText_no_space (n : Nat) : ' ' ∉ natToText n := by
  intro h
  have := natToText_all_digits n ' ' h
  simp at this

theorem natToText_no_lf (n : Nat) : '\n' ∉ natToText n := by
  intro h
  have := natToText_all_digits n '\n' h
  simp at this

theorem natToText_no_plus (n : Nat) : '+' ∉ natToText n := by
  intro h
  have := natToText_all_digits n '+' h
  simp at this

theorem stripSign_natToText (n : Nat) :
    stripSign (natToText n) = natToText n := by
  rcases hL : natToText n with _ | ⟨c, cs⟩
  · rfl
  · have hc : c ≠ '+' := by
      intro hplus
      apply natToText_no_plus n
      rw [hL, hplus]
      simp
    unfold stripSign
    split
    · rename_i heq
      simp only [List.cons.injEq] at heq
      exact absurd heq.1 hc
    · rfl

theorem parseDigits_natToText (n : Nat) : parseDigits (natToText n) = some n := by
  by_cases h0 : n = 0
  · subst h0; rfl
  · unfold natToText
    rw [if_neg h0,
        parseDigits_map _ (by simp [Nat.digits_ne_nil_iff_ne_zero.mpr h0])
          (fun d hd => Nat.digits_lt_base (by norm_num)
            (List.mem_reverse.mp hd))]
    simp [Nat.ofDigits_digits]

theorem parseUnsigned_natToText {e n : Nat} (h : n < 2 ^ e) :
    parseUnsigned e (natToText n) = some n := by
  unfold parseUnsigned
  rw [stripSign_natToText, parseDigits_natToText]
  simp [h]

theorem parseUsize_natToText {n : Nat} (h : n < 2 ^ 64) :
    parseUsize (natToText n) = some n := parseUnsigned_natToText h

theorem parseU32_natToText {n : Nat} (h : n < 2 ^ 32) :
    parseU32 (natToText n) = some n := parseUnsigned_natToText h

/-! ### Line and split lemmas -/

theorem takeWhile_append_all {p : Char → Bool} {l : List Char}
    (t : List Char) (h : ∀ c ∈ l, p c) :
    (l ++ t).takeWhile p = l ++ t.takeWhile p := by
  induction l with
  | nil => simp
  | cons c l2 ih =>
      have hc := h c (by simp)
      have iht := ih (fun x hx => h x (by simp [hx]))
      simp [List.takeWhile_cons, hc, iht]

theorem dropWhile_append_all {p : Char → Bool} {l : List Char}
    (t : List Char) (h : ∀ c ∈ l, p c) :
    (l ++ t).dropWhile p = t.dropWhile p := by
  induction l with
  | nil => simp
  | cons c l2 ih =>
      have hc := h c (by simp)
      have iht := ih (fun x hx => h x (by simp [hx]))
      simp [List.dropWhile_cons, hc, iht]

/-- Reading one encoded line: everything before the CRLF comes back as
the line (with nothing but the terminator stripped), and the stream
position advances past the LF. -/
theorem nextLine_line {l t : List Char} (h : '\n' ∉ l) :
    nextLine (l ++ '\r' :: '\n' :: t) = (some l, t) := by
  have hall : ∀ c ∈ l, (fun c => decide (c ≠ '\n')) c = true := by
    intro c hc
    simp only [decide_eq_true_eq]
    intro hcn
    exact h (hcn ▸ hc)
  have hne : (l ++ '\r' :: '\n' :: t).isEmpty = false := by
    cases l <;> rfl
  unfold nextLine
  rw [hne]
  simp only [Bool.false_eq_true, if_false, Prod.mk.injEq]
  constructor
  · rw [takeWhile_append_all _ hall]
    have : ('\r' :: '\n' :: t).takeWhile (fun c => decide (c ≠ '\n')) =
        ['\r'] := rfl
    rw [this]
    unfold stripCR
    rw [List.getLast?_concat]
    simp
  · rw [dropWhile_append_all _ hall]
    rfl

theorem splitOnceChar_cons (c x : Char) (rest : List Char) :
    splitOnceChar c (x :: rest) =
      if x = c then some ([], rest)
      else (splitOnceChar c rest).map (fun p => (x :: p.1, p.2)) := rfl

theorem splitOnceChar_not_mem {c : Char} {l : List Char} (h : c ∉ l) :
    splitOnceChar c l = none := by
  induction l with
  | nil => rfl
  | cons x l2 ih =>
      rw [splitOnceChar_cons,
        if_neg (by rintro rfl; exact h (by simp)),
        ih (fun hx => h (by simp [hx]))]
      rfl

theorem splitOnceChar_append {c : Char} {a : List Char} (rest : List Char)
    (h : c ∉ a) : splitOnceChar c (a ++ c :: rest) = some (a, rest) := by
  induction a with
  | nil => simp [splitOnceChar_cons]
  | cons x a2 ih =>
      rw [List.cons_append, splitOnceChar_cons,
        if_neg (by rintro rfl; exact h (by simp)),
        ih (fun hx => h (by simp [hx]))]
      rfl

/-- `splitn(3, ' ')` on a line with exactly two clean fields before the
free-form third field. -/
theorem splitn3_exact {a b c : List Char} (ha : ' ' ∉ a) (hb : ' ' ∉ b) :
    splitn3 (a ++ ' ' :: (b ++ ' ' :: c)) = [a, b, c] := by
  unfold splitn3
  rw [splitOnceChar_append _ ha]
  show (match splitOnceChar ' ' (b ++ ' ' :: c) with
        | none => [a, b ++ ' ' :: c]
        | some (b2, rest2) => [a, b2, rest2]) = [a, b, c]
  rw [splitOnceChar_append _ hb]

theorem splitOnceCS_cons (x : Char) (rest : List Char) :
    splitOnceCS (x :: rest) =
      if x = ':' ∧ rest.head? = some ' ' then some ([], rest.tail)
      else (splitOnceCS rest).map (fun p => (x :: p.1, p.2)) := rfl

theorem hasCS_cons (x : Char) (rest : List Char) :
    hasCS (x :: rest) =
      ((decide (x = ':') && decide (rest.head? = some ' ')) || hasCS rest) :=
  rfl

/-- The decoder's header split undoes the encoder's `name: value`
formatting as long as the name contains no colon-space. -/
theorem splitOnceCS_split {k : List Char} (v : List Char)
    (h : hasCS k = false) : splitOnceCS (k ++ ':' :: ' ' :: v) = some (k, v) := by
  induction k with
  | nil =>
      rw [List.nil_append, splitOnceCS_cons, if_pos (by simp)]
      rfl
  | cons x k2 ih =>
      rw [hasCS_cons] at h
      simp only [Bool.or_eq_false_iff, Bool.and_eq_false_iff,
        decide_eq_false_iff_not] at h
      obtain ⟨h1, h2⟩ := h
      rw [List.cons_append, splitOnceCS_cons, if_neg, ih h2]
      · rfl
      · rintro ⟨rfl, habs⟩
        rcases hk2 : k2 with _ | ⟨y, k3⟩
        · rw [hk2] at habs
          simp at habs
        · rw [hk2] at habs h1
          simp only [List.cons_append, List.head?_cons,
            Option.some.injEq] at habs
          rcases h1 with h1 | h1
          · exact h1 rfl
          · rw [habs] at h1
            simp at h1

/-! ### Header map lemmas -/

theorem lookupH_cons (k0 v0 key : List Char) (rest : Headers) :
    lookupH ((k0, v0) :: rest) key =
      if k0 = key then some v0 else lookupH rest key := rfl

theorem insertH_cons (k0 v0 k v : List Char) (rest : Headers) :
    insertH ((k0, v0) :: rest) k v =
      if k0 = k then (k0, v) :: rest else (k0, v0) :: insertH rest k v := rfl

theorem lookupH_append_single {acc : Headers} {k key : List Char}
    (v : List Char) (h1 : lookupH acc key = none) (h2 : key ≠ k) :
    lookupH (acc ++ [(k, v)]) key = none := by
  induction acc with
  | nil =>
      rw [List.nil_append, lookupH_cons, if_neg (fun hk => h2 hk.symm)]
      rfl
  | cons p acc2 ih =>
      obtain ⟨k0, v0⟩ := p
      rw [lookupH_cons] at h1
      rw [List.cons_append, lookupH_cons]
      by_cases hk0 : k0 = key
      · rw [if_pos hk0] at h1
        exact absurd h1 (by simp)
      · rw [if_neg hk0] at h1
        rw [if_neg hk0]
        exact ih h1

theorem insertH_fresh {hs : Headers} {k : List Char} (v : List Char)
    (h : lookupH hs k = none) : insertH hs k v = hs ++ [(k, v)] := by
  induction hs with
  | nil => rfl
  | cons p hs2 ih =>
      obtain ⟨k0, v0⟩ := p
      rw [lookupH_cons] at h
      rw [insertH_cons]
      by_cases hk0 : k0 = k
      · rw [if_pos hk0] at h
        exact absurd h (by simp)
      · rw [if_neg hk0] at h
        rw [if_neg hk0, List.cons_append, ih h]

/-! ### Round trip -/

theorem take_len_append (l t : List Char) : (l ++ t).take l.length = l := by
  induction l with
  | nil => simp
  | cons c l2 ih => simp [ih]

theorem drop_len_append (l t : List Char) : (l ++ t).drop l.length = t := by
  induction l with
  | nil => simp
  | cons c l2 ih => simp [ih]

theorem deserialize_step {s l rest : List Char}
    (h : nextLine s = (some l, rest)) :
    Message.deserialize s =
      match readHeaders rest [] with
      | .error e => .error e
      | .ok (hs, r2) => Message.parse l hs r2 := by
  unfold Message.deserialize
  rw [h]

theorem readHeaders_step_blank {s rest : List Char}
    (h : nextLine s = (some [], rest)) (acc : Headers) :
    readHeaders s acc = .ok (acc, rest) := by
  rw [readHeaders_eq, h]
  rfl

theorem readHeaders_step_header {s l rest k v : List Char}
    (h : nextLine s = (some l, rest)) (hne : l ≠ [])
    (hsp : splitOnceCS l = some (k, v)) (acc : Headers) :
    readHeaders s acc = readHeaders rest (insertH acc k v) := by
  cases l with
  | nil => exact absurd rfl hne
  | cons c l2 =>
      rw [readHeaders_eq, h]
      simp [hsp]

/-- The header loop inverts the header serializer: each encoded
`name: value` line is read back and inserted, and the final blank line
stops the loop exactly at the body. -/
theorem readHeaders_serialize :
    ∀ (hs acc : Headers) (t : List Char),
      (∀ p ∈ hs, WfHeader p) → (hs.map Prod.fst).Nodup →
      (∀ p ∈ hs, lookupH acc p.1 = none) →
      readHeaders (serializeHeaders hs ++ '\r' :: '\n' :: t) acc =
        .ok (acc ++ hs, t) := by
  intro hs
  induction hs with
  | nil =>
      intro acc t _ _ _
      rw [show serializeHeaders [] ++ '\r' :: '\n' :: t =
            '\r' :: '\n' :: t from rfl]
      rw [readHeaders_step_blank
        (by simpa using nextLine_line (l := []) (t := t) (by simp)) acc]
      simp
  | cons p hs2 ih =>
      obtain ⟨k, v⟩ := p
      intro acc t hwf hnodup hfresh
      obtain ⟨hk_lf, hk_cs, hv_lf⟩ := hwf (k, v) (by simp)
      have hshape : serializeHeaders ((k, v) :: hs2) ++ '\r' :: '\n' :: t =
          (k ++ ':' :: ' ' :: v) ++ '\r' :: '\n' ::
            (serializeHeaders hs2 ++ '\r' :: '\n' :: t) := by
        simp [serializeHeaders, List.append_assoc, List.cons_append]
      have hlf : '\n' ∉ k ++ ':' :: ' ' :: v := by
        intro hmem
        rcases List.mem_append.mp hmem with h1 | h1
        · exact hk_lf h1
        · simp only [List.mem_cons] at h1
          rcases h1 with h1 | h1 | h1
          · exact absurd h1 (by decide)
          · exact absurd h1 (by decide)
          · exact hv_lf h1
      have hnodup2 := List.nodup_cons.mp (by rw [List.map_cons] at hnodup; exact hnodup)
      rw [hshape,
        readHeaders_step_header (nextLine_line hlf) (by simp)
          (splitOnceCS_split v hk_cs) acc,
        insertH_fresh v (hfresh (k, v) (by simp)),
        ih (acc ++ [(k, v)]) t (fun q hq => hwf q (by simp [hq])) hnodup2.2
          (fun q hq => lookupH_append_single _ (hfresh q (by simp [hq]))
            (fun hqk => hnodup2.1
              (by rw [← hqk]; exact List.mem_map.mpr ⟨q, hq, rfl⟩)))]
      simp

theorem startline_no_lf_request (m : Method) {res : List Char}
    (v : Version) (h : '\n' ∉ res) :
    '\n' ∉ m.toToken ++ ' ' :: (res ++ ' ' :: v.toToken) := by
  intro hmem
  rcases List.mem_append.mp hmem with h1 | h1
  · exact method_toToken_no_lf m h1
  · simp only [List.mem_cons] at h1
    rcases h1 with h1 | h1
    · exact absurd h1 (by decide)
    · rcases List.mem_append.mp h1 with h2 | h2
      · exact h h2
      · simp only [List.mem_cons] at h2
        rcases h2 with h2 | h2
        · exact absurd h2 (by decide)
        · exact version_toToken_no_lf v h2

theorem startline_no_lf_response (v : Version) (code : Nat)
    {msg : List Char} (h : '\n' ∉ msg) :
    '\n' ∉ v.toToken ++ ' ' :: (natToText code ++ ' ' :: msg) := by
  intro hmem
  rcases List.mem_append.mp hmem with h1 | h1
  · exact version_toToken_no_lf v h1
  · simp only [List.mem_cons] at h1
    rcases h1 with h1 | h1
    · exact absurd h1 (by decide)
    · rcases List.mem_append.mp h1 with h2 | h2
      · exact natToText_no_lf code h2
      · simp only [List.mem_cons] at h2
        rcases h2 with h2 | h2
        · exact absurd h2 (by decide)
        · exact h h2

/-- `Message::parse` inverts the request start line and reads back
exactly the body. -/
theorem parse_serialize_request (m : Method) (res : List Char) (v : Version)
    (hs : Headers) (body t : List Char) (hres : ' ' ∉ res)
    (hbody : bodyLenMatches hs body = true) :
    Message.parse (m.toToken ++ ' ' :: (res ++ ' ' :: v.toToken)) hs
        (body ++ t) = .ok (.request ⟨m, res, v, hs, body⟩, t) := by
  unfold Message.parse
  rw [splitn3_exact (method_toToken_no_space m) hres]
  simp only [method_fromStr_toToken, version_fromStr_toToken]
  unfold Request.new
  unfold bodyLenMatches at hbody
  rcases hCL : lookupH hs "Content-Length".toList with _ | val <;>
    rw [hCL] at hbody
  · have hb : body = [] := by simpa using hbody
    subst hb
    simp [Except.map]
  · have hb : parseUsize val = some body.length := by simpa using hbody
    have hle : body.length ≤ (body ++ t).length := by simp
    simp [hb, hle, Except.map, take_len_append, drop_len_append]

/-- `Message::parse` inverts the response status line and reads back
exactly the body. -/
theorem parse_serialize_response (v : Version) (code : Nat) (msg : List Char)
    (hs : Headers) (body t : List Char) (hcode : code < 2 ^ 32)
    (hbody : bodyLenMatches hs body = true) :
    Message.parse (v.toToken ++ ' ' :: (natToText code ++ ' ' :: msg)) hs
        (body ++ t) = .ok (.response ⟨v, code, msg, hs, body⟩, t) := by
  unfold Message.parse
  rw [splitn3_exact (version_toToken_no_space v) (natToText_no_space code)]
  simp only [method_fromStr_version_token, version_fromStr_toToken,
    parseU32_natToText hcode]
  unfold Response.new
  unfold bodyLenMatches at hbody
  rcases hCL : lookupH hs "Content-Length".toList with _ | val <;>
    rw [hCL] at hbody
  · have hb : body = [] := by simpa using hbody
    subst hb
    simp [Except.map]
  · have hb : parseUsize val = some body.length := by simpa using hbody
    have hle : body.length ≤ (body ++ t).length := by simp
    simp [hb, hle, Except.map, take_len_append, drop_len_append]

/-- Round trip for a wellformed request, with any continuation of the
stream left untouched after the body. -/
theorem deserialize_serialize_request (r : Request) (t : List Char)
    (h : r.Wf) :
    Message.deserialize (r.serialize ++ t) = .ok (.request r, t) := by
  obtain ⟨m, res, v, hs, body⟩ := r
  obtain ⟨hsp, hlf, ⟨hnodup, hwf⟩, hbody⟩ := h
  have hshape : Request.serialize ⟨m, res, v, hs, body⟩ ++ t =
      (m.toToken ++ ' ' :: (res ++ ' ' :: v.toToken)) ++ '\r' :: '\n' ::
        (serializeHeaders hs ++ '\r' :: '\n' :: (body ++ t)) := by
    simp [Request.serialize, List.append_assoc, List.cons_append]
  rw [hshape,
    deserialize_step (nextLine_line (startline_no_lf_request m v hlf)),
    readHeaders_serialize hs [] (body ++ t) hwf (by simpa using hnodup)
      (fun q _ => rfl)]
  exact parse_serialize_request m res v hs body t hsp hbody

/-- Round trip for a wellformed response, with any continuation of the
stream left untouched after the body. -/
theorem deserialize_serialize_response (r : Response) (t : List Char)
    (h : r.Wf) :
    Message.deserialize (r.serialize ++ t) = .ok (.response r, t) := by
  obtain ⟨v, code, msg, hs, body⟩ := r
  obtain ⟨hcode, hlf, ⟨hnodup, hwf⟩, hbody⟩ := h
  have hshape : Response.serialize ⟨v, code, msg, hs, body⟩ ++ t =
      (v.toToken ++ ' ' :: (natToText code ++ ' ' :: msg)) ++ '\r' :: '\n' ::
        (serializeHeaders hs ++ '\r' :: '\n' :: (body ++ t)) := by
    simp [Response.serialize, List.append_assoc, List.cons_append]
  rw [hshape,
    deserialize_step (nextLine_line (startline_no_lf_response v code hlf)),
    readHeaders_serialize hs [] (body ++ t) hwf (by simpa using hnodup)
      (fun q _ => rfl)]
  exact parse_serialize_response v code msg hs body t hcode hbody

/-! ### Error-kind characterizations -/

/-- The header loop can only fail with the header error. -/
theorem readHeadersF_error_header :
    ∀ (fuel : Nat) (s : List Char) (acc : Headers) (e : DecodeError),
      readHeadersF fuel s acc = .error e → e = .header := by
  intro fuel
  induction fuel with
  | zero =>
      intro s acc e h
      unfold readHeadersF at h
      simp only [Except.error.injEq] at h
      exact h.symm
  | succ f ih =>
      intro s acc e h
      unfold readHeadersF at h
      split at h
      · simp at h
      · split at h
        · simp at h
        · split at h
          · simp only [Except.error.injEq] at h
            exact h.symm
          · exact ih _ _ _ h

theorem request_new_error_ne_cc {m : Method} {res : List Char} {v : Version}
    {hs : Headers} {stream : List Char} {e : DecodeError}
    (h : Request.new m res v hs stream = .error e) :
    e ≠ .connectionClosed := by
  unfold Request.new at h
  split at h
  · simp at h
  · split at h
    · simp only [Except.error.injEq] at h
      rw [← h]
      simp
    · split at h
      · simp at h
      · simp only [Except.error.injEq] at h
        rw [← h]
        simp

theorem response_new_error_ne_cc {v : Version} {code : Nat}
    {msg : List Char} {hs : Headers} {stream : List Char} {e : DecodeError}
    (h : Response.new v code msg hs stream = .error e) :
    e ≠ .connectionClosed := by
  unfold Response.new at h
  split at h
  · simp at h
  · split at h
    · simp only [Except.error.injEq] at h
      rw [← h]
      simp
    · split at h
      · simp at h
      · simp only [Except.error.injEq] at h
        rw [← h]
        simp

/-- `Message::parse` never reports the connection as closed. -/
theorem parse_error_ne_cc {line : List Char} {hs : Headers}
    {stream : List Char} {e : DecodeError}
    (h : Message.parse line hs stream = .error e) :
    e ≠ .connectionClosed := by
  unfold Message.parse at h
  split at h
  · split at h
    · split at h
      · rw [Except.map.eq_def] at h
        split at h
        · rename_i e0 hr
          simp only [Except.error.injEq] at h
          rw [← h]
          exact request_new_error_ne_cc hr
        · simp at h
      · simp only [Except.error.injEq] at h
        rw [← h]
        simp
    · split at h
      · split at h
        · rw [Except.map.eq_def] at h
          split at h
          · rename_i e0 hr
            simp only [Except.error.injEq] at h
            rw [← h]
            exact response_new_error_ne_cc hr
          · simp at h
        · simp only [Except.error.injEq] at h
          rw [← h]
          simp
      · simp only [Except.error.injEq] at h
        rw [← h]
        simp
  · simp only [Except.error.injEq] at h
    rw [← h]
    simp

/-- The decoder reports `ConnectionClosed` only on empty input. -/
theorem deserialize_cc_only_empty {s : List Char} (hne : s ≠ []) :
    Message.deserialize s ≠ .error .connectionClosed := by
  intro hcc
  unfold Message.deserialize at hcc
  split at hcc
  · rename_i heq
    exact hne (nextLine_none heq).1
  · split at hcc
    · rename_i e hrh
      simp only [Except.error.injEq] at hcc
      exact absurd (readHeadersF_error_header _ _ _ _ (hcc ▸ hrh)) (by simp)
    · exact parse_error_ne_cc hcc rfl

/-! ### `split_once(": ")` characterization -/

/-- A line with no colon-space does not split. -/
theorem splitOnceCS_none {line : List Char} (h : hasCS line = false) :
    splitOnceCS line = none := by
  induction line with
  | nil => rfl
  | cons c rest ih =>
      rw [hasCS_cons] at h
      simp only [Bool.or_eq_false_iff, Bool.and_eq_false_iff,
        decide_eq_false_iff_not] at h
      obtain ⟨h1, h2⟩ := h
      rw [splitOnceCS_cons, if_neg, ih h2]
      · rfl
      · rintro ⟨rfl, habs⟩
        rcases h1 with h1 | h1
        · exact h1 rfl
        · exact h1 habs

/-- A successful split is at the first colon-space: the line decomposes
as `name ++ ": " ++ value` and the name holds no colon-space. -/
theorem splitOnceCS_some {l r line : List Char}
    (h : splitOnceCS line = some (l, r)) :
    line = l ++ ':' :: ' ' :: r ∧ hasCS l = false := by
  induction line generalizing l r with
  | nil => simp [splitOnceCS] at h
  | cons c rest ih =>
      rw [splitOnceCS_cons] at h
      by_cases hc : c = ':' ∧ rest.head? = some ' '
      · rw [if_pos hc] at h
        simp only [Option.some.injEq, Prod.mk.injEq] at h
        obtain ⟨hl, hr⟩ := h
        obtain ⟨hc1, hc2⟩ := hc
        subst hc1
        subst hl
        rcases rest with _ | ⟨y, t⟩
        · simp at hc2
        · simp only [List.head?_cons, Option.some.injEq] at hc2
          subst hc2
          subst hr
          exact ⟨rfl, rfl⟩
      · rw [if_neg hc] at h
        rcases hsp : splitOnceCS rest with _ | ⟨l2, r2⟩ <;> rw [hsp] at h
        · simp at h
        · simp only [Option.map, Option.some.injEq, Prod.mk.injEq] at h
          obtain ⟨hl, hr⟩ := h
          obtain ⟨hrest, hl2cs⟩ := ih hsp
          subst hr
          rw [← hl]
          constructor
          · rw [hrest]
            simp
          · rw [hasCS_cons]
            simp only [Bool.or_eq_false_iff, Bool.and_eq_false_iff,
              decide_eq_false_iff_not]
            refine ⟨?_, hl2cs⟩
            by_cases hcq : c = ':'
            · right
              intro habs
              apply hc
              refine ⟨hcq, ?_⟩
              rw [hrest]
              rcases hl2 : l2 with _ | ⟨z, t2⟩
              · rw [hl2] at habs
                simp at habs
              · rw [hl2] at habs
                simp only [List.head?_cons, Option.some.injEq] at habs
                subst habs
                simp
            · left
              exact hcq

/-! ## Claims -/

/-- C1, counterexample to the claim as stated: the request with
resource `"/a b"` (a space inside the path) is constructible, and its
header values (there are none) are vacuously ASCII-safe, yet decoding
its encoding fails — the space makes `splitn(3, ' ')` cut the start
line at the wrong place, so the third field `"b HTTP/1.1"` is not a
version and no equal value is produced. -/
theorem c1_roundtrip_counterexample :
    Message.deserialize (Request.serialize
      ⟨.get, "/a b".toList, .http11, [], []⟩) =
      .error .invalidVersion := by rfl

/-- C1, amended: the round trip `decode(encode(value))` reproduces the
method (for requests), version, status code (for responses), headers
and body of the original value, provided the value cannot collide with
the wire delimiters: the resource holds no space and no newline, header
names hold no colon-space and no newline and are pairwise distinct,
header values hold no newline, the reason phrase holds no newline, the
status code is in `u32` range, and the body length agrees with the
`Content-Length` header (empty body when absent) — which every value
built by `Request::new`/`Response::new` satisfies.  Any continuation
of the stream after the encoded value is left untouched. -/
theorem c1_roundtrip :
    (∀ (r : Request) (t : List Char), r.Wf →
      Message.deserialize (r.serialize ++ t) = .ok (.request r, t)) ∧
    (∀ (r : Response) (t : List Char), r.Wf →
      Message.deserialize (r.serialize ++ t) = .ok (.response r, t)) :=
  ⟨deserialize_serialize_request, deserialize_serialize_response⟩

/-- C1, witness: the round trip at a concrete request with a body and
at the concrete 404 response. -/
theorem c1_roundtrip_witness :
    Message.deserialize (Request.serialize
        ⟨.get, "/".toList, .http11,
          [("Content-Length".toList, "5".toList)], "hello".toList⟩ ++ []) =
      .ok (.request ⟨.get, "/".toList, .http11,
        [("Content-Length".toList, "5".toList)], "hello".toList⟩, []) ∧
    Message.deserialize (Response.serialize
        ⟨.http11, 404, "Not Found".toList,
          [("Content-Length".toList, "3".toList)], "abc".toList⟩ ++ []) =
      .ok (.response ⟨.http11, 404, "Not Found".toList,
        [("Content-Length".toList, "3".toList)], "abc".toList⟩, []) :=
  ⟨c1_roundtrip.1 _ [] (by decide), c1_roundtrip.2 _ [] (by decide)⟩

/-- C2: when the peer sends any finite sequence of wellformed requests
and then closes the stream, `handle_connection` writes exactly one
reply per request, each produced by the response policy, in decode
order, and then terminates gracefully (`Ok(())`, the `true` flag),
not with an error. -/
theorem c2_connection_loop (policy : Request → Response)
    (badReply : Response) (reqs : List Request) (h : ∀ r ∈ reqs, r.Wf) :
    handleConnection policy badReply
        (reqs.map Request.serialize).flatten = (reqs.map policy, true) := by
  induction reqs with
  | nil =>
      rw [show (List.map Request.serialize []).flatten = ([] : List Char)
            from rfl,
        handleConnection_eq]
      rfl
  | cons r rs ih =>
      have hshape : (List.map Request.serialize (r :: rs)).flatten =
          Request.serialize r ++ (List.map Request.serialize rs).flatten := by
        simp
      rw [hshape, handleConnection_eq,
        deserialize_serialize_request r _ (h r (by simp))]
      simp [ih (fun q hq => h q (by simp [hq]))]

/-- C2, witness: two concrete requests, a constant policy, then close:
two replies in order and a graceful stop. -/
theorem c2_connection_loop_witness :
    handleConnection (fun _ => ⟨.http11, 200, "OK".toList, [], []⟩)
        ⟨.http11, 400, "Bad Request".toList, [], []⟩
        ((List.map Request.serialize
          ([⟨.get, "/".toList, .http11, [], []⟩,
            ⟨.post, "/x".toList, .http11,
              [("Content-Length".toList, "2".toList)], "ab".toList⟩] :
            List Request)).flatten) =
      (List.map (fun _ => (⟨.http11, 200, "OK".toList, [], []⟩ : Response))
        ([⟨.get, "/".toList, .http11, [], []⟩,
          ⟨.post, "/x".toList, .http11,
            [("Content-Length".toList, "2".toList)], "ab".toList⟩] :
          List Request), true) :=
  c2_connection_loop _ _ _ (by decide)

/-- C3, counterexample to the claim as stated: a start line with five
space-separated fields decodes successfully — `splitn(3, ' ')` folds
everything after the second space into the third field, so
`"HTTP/1.1 200 OK extra"` becomes a response with reason `"OK extra"`
instead of a start-line parse failure. -/
theorem c3_start_line_counterexample :
    Message.deserialize "HTTP/1.1 200 OK extra\r\n\r\n".toList =
      .ok (.response ⟨.http11, 200, "OK extra".toList, [], []⟩, []) := by rfl

/-- C3, amended: the decoder splits the start line with
`splitn(3, ' ')`, which yields at most three parts; whenever that split
yields fewer than three (the only way its length can differ from
three), decoding fails with the start-line parse error.  More than
three space-separated tokens do not fail on field count: the extra
content stays inside the third part.  In particular
`decode("GET /\r\n\r\n")` (two fields) is the start-line parse error. -/
theorem c3_start_line :
    (∀ (line : List Char) (hs : Headers) (stream : List Char),
      (splitn3 line).length ≠ 3 →
      Message.parse line hs stream = .error .requestLineParse) ∧
    Message.deserialize "GET /\r\n\r\n".toList = .error .requestLineParse := by
  refine ⟨?_, by rfl⟩
  intro line hs stream h
  unfold Message.parse
  split
  · rename_i a b c heq
    rw [heq] at h
    simp at h
  · rfl

/-- C3, witness: the two-field start line `"GET /"` fails with the
start-line parse error. -/
theorem c3_start_line_witness :
    Message.parse "GET /".toList [] [] = .error .requestLineParse :=
  c3_start_line.1 "GET /".toList [] [] (by decide)

/-- C4, counterexample to the claim as stated: the input
`"GET / HTTP/1.1\r\n"` reaches end of stream after the start line and
before any blank line, yet decoding does not fail with
`ConnectionClosed` — the header loop treats end of stream exactly like
the blank line, and a `Request` value is produced. -/
theorem c4_header_eof_counterexample :
    Message.deserialize "GET / HTTP/1.1\r\n".toList =
      .ok (.request ⟨.get, "/".toList, .http11, [], []⟩, []) := by rfl

/-- C4, amended: `ConnectionClosed` arises only when the stream is
empty before the start line; on any non-empty input the decoder never
reports it.  End of stream inside the header block ends the block the
same way a blank line does and decoding proceeds with the headers read
so far — on `"GET / HTTP/1.1\r\n"` it produces a request. -/
theorem c4_header_eof :
    (∀ s : List Char, s ≠ [] →
      Message.deserialize s ≠ .error .connectionClosed) ∧
    Message.deserialize "GET / HTTP/1.1\r\n".toList =
      .ok (.request ⟨.get, "/".toList, .http11, [], []⟩, []) :=
  ⟨fun _ hne => deserialize_cc_only_empty hne, by rfl⟩

/-- C4, witness: the truncated input of the counterexample is not
reported as `ConnectionClosed`. -/
theorem c4_header_eof_witness :
    Message.deserialize "GET / HTTP/1.1\r\n".toList ≠
      .error .connectionClosed :=
  c4_header_eof.1 "GET / HTTP/1.1\r\n".toList (by decide)

/-- C5: body length comes from `Content-Length`.  For both message
constructors: no header means an empty body with nothing consumed; a
header whose value does not parse as an unsigned integer is the
content-length error; a parsed value `n` (with enough stream) consumes
and stores exactly the first `n` bytes.  And concretely,
`"GET / HTTP/1.1\r\nContent-Length: 5\r\n\r\nhello"` decodes to the
expected GET request with body `"hello"`. -/
theorem c5_content_length :
    (∀ (m : Method) (res : List Char) (v : Version) (hs : Headers)
        (stream : List Char),
      lookupH hs "Content-Length".toList = none →
      Request.new m res v hs stream = .ok (⟨m, res, v, hs, []⟩, stream)) ∧
    (∀ (m : Method) (res : List Char) (v : Version) (hs : Headers)
        (stream val : List Char),
      lookupH hs "Content-Length".toList = some val →
      parseUsize val = none →
      Request.new m res v hs stream = .error .invalidContentLength) ∧
    (∀ (m : Method) (res : List Char) (v : Version) (hs : Headers)
        (stream val : List Char) (n : Nat),
      lookupH hs "Content-Length".toList = some val →
      parseUsize val = some n → n ≤ stream.length →
      Request.new m res v hs stream =
        .ok (⟨m, res, v, hs, stream.take n⟩, stream.drop n)) ∧
    (∀ (v : Version) (code : Nat) (msg : List Char) (hs : Headers)
        (stream : List Char),
      lookupH hs "Content-Length".toList = none →
      Response.new v code msg hs stream =
        .ok (⟨v, code, msg, hs, []⟩, stream)) ∧
    (∀ (v : Version) (code : Nat) (msg : List Char) (hs : Headers)
        (stream val : List Char),
      lookupH hs "Content-Length".toList = some val →
      parseUsize val = none →
      Response.new v code msg hs stream = .error .invalidContentLength) ∧
    (∀ (v : Version) (code : Nat) (msg : List Char) (hs : Headers)
        (stream val : List Char) (n : Nat),
      lookupH hs "Content-Length".toList = some val →
      parseUsize val = some n → n ≤ stream.length →
      Response.new v code msg hs stream =
        .ok (⟨v, code, msg, hs, stream.take n⟩, stream.drop n)) ∧
    Message.deserialize
        "GET / HTTP/1.1\r\nContent-Length: 5\r\n\r\nhello".toList =
      .ok (.request ⟨.get, "/".toList, .http11,
        [("Content-Length".toList, "5".toList)], "hello".toList⟩, []) := by
  refine ⟨?_, ?_, ?_, ?_, ?_, ?_, by rfl⟩
  · intro m res v hs stream h
    unfold Request.new
    rw [h]
  · intro m res v hs stream val h1 h2
    unfold Request.new
    rw [h1]
    simp [h2]
  · intro m res v hs stream val n h1 h2 h3
    unfold Request.new
    rw [h1]
    simp [h2, h3]
  · intro v code msg hs stream h
    unfold Response.new
    rw [h]
  · intro v code msg hs stream val h1 h2
    unfold Response.new
    rw [h1]
    simp [h2]
  · intro v code msg hs stream val n h1 h2 h3
    unfold Response.new
    rw [h1]
    simp [h2, h3]

/-- C5, witness: a request with `Content-Length: 2` over the stream
`"abXY"` keeps body `"ab"` and leaves `"XY"` unread. -/
theorem c5_content_length_witness :
    Request.new .get "/".toList .http11
        [("Content-Length".toList, "2".toList)] "abXY".toList =
      .ok (⟨.get, "/".toList, .http11,
        [("Content-Length".toList, "2".toList)],
        "abXY".toList.take 2⟩, "abXY".toList.drop 2) :=
  c5_content_length.2.2.1 .get "/".toList .http11
    [("Content-Length".toList, "2".toList)] "abXY".toList "2".toList 2
    (by decide) (by decide) (by decide)

/-- C6: decoding the empty input (immediate end of stream) yields
`ConnectionClosed`, and that error kind is distinct from every other
error the decoder can produce. -/
theorem c6_empty_connection_closed :
    Message.deserialize [] = .error .connectionClosed ∧
    DecodeError.connectionClosed ≠ .requestLineParse ∧
    DecodeError.connectionClosed ≠ .header ∧
    DecodeError.connectionClosed ≠ .invalidVersion ∧
    DecodeError.connectionClosed ≠ .invalidCode ∧
    DecodeError.connectionClosed ≠ .invalidContentLength ∧
    DecodeError.connectionClosed ≠ .bodyReadFailure := by
  refine ⟨by rfl, ?_, ?_, ?_, ?_, ?_, ?_⟩ <;> decide

/-- C7: every successful header split is at the first colon-space —
the line decomposes as `name ++ ": " ++ value` with no colon-space in
the name; a non-empty header line with no colon-space makes the header
loop fail with the header error; and concretely
`"GET / HTTP/1.1\r\nBadHeaderLine\r\n\r\n"` decodes to the header
error. -/
theorem c7_header_split :
    (∀ (l r line : List Char), splitOnceCS line = some (l, r) →
      line = l ++ ':' :: ' ' :: r ∧ hasCS l = false) ∧
    (∀ (s line rest : List Char) (acc : Headers),
      nextLine s = (some line, rest) → line ≠ [] → hasCS line = false →
      readHeaders s acc = .error .header) ∧
    Message.deserialize "GET / HTTP/1.1\r\nBadHeaderLine\r\n\r\n".toList =
      .error .header := by
  refine ⟨fun l r line h => splitOnceCS_some h, ?_, by rfl⟩
  intro s line rest acc h hne hcs
  cases line with
  | nil => exact absurd rfl hne
  | cons c l2 =>
      rw [readHeaders_eq, h]
      simp [splitOnceCS_none hcs]

/-- C7, witness: the line `"A: b"` splits into name `"A"` and value
`"b"` at its first colon-space. -/
theorem c7_header_split_witness :
    "A: b".toList = "A".toList ++ ':' :: ' ' :: "b".toList ∧
    hasCS "A".toList = false :=
  c7_header_split.1 "A".toList "b".toList "A: b".toList (by rfl)

/-- C8: for every `Method` and `Version` variant, parsing the canonical
token yields exactly that variant back (parse and token printing are
total Lean functions here, as they are total pure functions in the
source). -/
theorem c8_token_inverse :
    (∀ m : Method, Method.fromStr m.toToken = some m) ∧
    (∀ v : Version, Version.fromStr v.toToken = some v) :=
  ⟨method_fromStr_toToken, version_fromStr_toToken⟩

/-- C9: the file-serving convenience path at status 404 yields a
response with reason phrase `"Not Found"` and a `Content-Length`
header equal to the byte length of the supplied body source (whole
file consumed, nothing left over).  The length bound is the `u64`
range of the file size. -/
theorem c9_serve_file_404 (v : Version) (fb : List Char)
    (h : fb.length < 2 ^ 64) :
    Response.serveFileWithCode v 404 fb =
      .ok (⟨v, 404, "Not Found".toList,
        [("Content-Length".toList, natToText fb.length)], fb⟩, []) := by
  unfold Response.serveFileWithCode
  rw [show (Response.statusMessage 404).getD "Unknown Code".toList =
        "Not Found".toList from rfl]
  unfold Response.new
  rw [lookupH_cons, if_pos rfl]
  simp [parseUsize_natToText h]

/-- C9, witness: serving a three-byte file with code 404. -/
theorem c9_serve_file_404_witness :
    Response.serveFileWithCode .http11 404 "abc".toList =
      .ok (⟨.http11, 404, "Not Found".toList,
        [("Content-Length".toList, natToText "abc".toList.length)],
        "abc".toList⟩, []) :=
  c9_serve_file_404 .http11 "abc".toList (by decide)

/-- C10: `write_obj` performs exactly one write call, whose payload is
the serialized bytes, and returns success whenever that single call
returns a count — the count (here any `n`, including counts smaller
than the payload) is never inspected, so a short write is not reported
as an error. -/
theorem c10_write_obj (msg : Message)
    (stream : List Char → Except IoError Nat) (n : Nat)
    (h : stream (Message.serialize msg) = .ok n) :
    HttpWriter.writeObj msg stream = (.ok (), [Message.serialize msg]) := by
  unfold HttpWriter.writeObj
  rw [h]

/-- C10, witness: a stream that accepts zero bytes of the 18-byte
serialized request still yields success and a single write call. -/
theorem c10_write_obj_witness :
    HttpWriter.writeObj (.request ⟨.get, "/".toList, .http11, [], []⟩)
        (fun _ => .ok 0) =
      (.ok (), [Message.serialize
        (.request ⟨.get, "/".toList, .http11, [], []⟩)]) ∧
    0 < (Message.serialize
      (.request ⟨.get, "/".toList, .http11, [], []⟩)).length :=
  ⟨c10_write_obj _ _ 0 rfl, by decide⟩

end Minhttp
